import Mathlib

/-!
Verification development for the outlook2github calendar aggregation engine.

Python strings are embedded as `List Char` (`PyStr`); `datetime.date` /
`datetime.datetime` values as `DateV` / `DTValue`; floats produced by
`total_seconds() / 86400.0` as exact rationals.  Fallible Python code
(KeyError / TypeError / ValueError propagation) is embedded with
`Except String`.
-/

/-- Python `str` embedded as a list of characters. -/
abbrev PyStr := List Char

/-- Helper for `str.split`: prepend a character to the first piece. -/
def consHead (c : Char) : List PyStr → List PyStr
  | [] => [[c]]
  | h :: t => (c :: h) :: t

/-- Python `s.split(", ")` (the only separator the repository ever splits on):
split `s` at every (non-overlapping, scanned left to right) occurrence of the
two-character separator `", "`.  `"".split(", ") = [""]`. -/
def splitCommaSpace : PyStr → List PyStr
  | [] => [[]]
  | [c] => [[c]]
  | c :: c2 :: rest =>
    if c = ',' ∧ c2 = ' ' then [] :: splitCommaSpace rest
    else consHead c (splitCommaSpace (c2 :: rest))

/-- `true` iff the string contains no occurrence of the separator `", "`. -/
def sepFree : PyStr → Bool
  | [] => true
  | [_] => true
  | c :: c2 :: rest => if c = ',' ∧ c2 = ' ' then false else sepFree (c2 :: rest)

/-- ASCII whitespace, as stripped by Python `str.strip()`. -/
def isPySpace (c : Char) : Bool :=
  c = ' ' || c = '\t' || c = '\n' || c = '\r' || c = '\x0b' || c = '\x0c'

/-- Python `str.strip()`: drop leading and trailing whitespace. -/
def pyStrip (s : PyStr) : PyStr :=
  ((s.dropWhile isPySpace).reverse.dropWhile isPySpace).reverse

/-- The summary-prefix step shared by all merge variants
(`summary if summary.startswith(prefix) else prefix + summary`). -/
def applyPre (pre s : PyStr) : PyStr :=
  if pre.isPrefixOf s then s else pre ++ s

/-- Summary folding of `merge_calendars.py` (lines 157-159): append the new
prefixed summary joined by `", "` unless it is already one of the parts of the
stored summary split on `", "`. -/
def foldSummaryMC (es p : PyStr) : PyStr :=
  if p ∈ splitCommaSpace es then es else es ++ ',' :: ' ' :: p

/-- Summary folding of `master_script.py` (lines 239-242): parts of the stored
summary are additionally stripped, and an empty stored summary is replaced
instead of joined. -/
def foldSummaryMS (es p : PyStr) : PyStr :=
  let parts := if es ≠ [] then (splitCommaSpace es).map pyStrip else []
  if p ∈ parts then es
  else if es ≠ [] then es ++ ',' :: ' ' :: p else p

/-- `normalise_url`: position of the first occurrence of the literal `"http"`
(`raw_url.find("http")`); `none` models the `-1` / `ValueError` case. -/
def findHttp : PyStr → Option Nat
  | 'h' :: 't' :: 't' :: 'p' :: _ => some 0
  | _ :: rest => (findHttp rest).map (· + 1)
  | [] => none

/-! ### Dates, times, time zones -/

/-- A Python `datetime.date` (proleptic Gregorian calendar). -/
structure DateV where
  year : Nat
  month : Nat
  day : Nat
deriving DecidableEq

/-- A time of day with second precision. -/
structure TimeV where
  hour : Nat
  minute : Nat
  second : Nat
deriving DecidableEq

/-- A `tzinfo` slot: absent (naive) or a fixed UTC offset in minutes. -/
inductive TzV : Type where
  | naive : TzV
  | offset (minutes : Int) : TzV
deriving DecidableEq

/-- A decoded DTSTART/DTEND value: a date-only value or a date-time. -/
inductive DTValue : Type where
  | dateOnly (d : DateV) : DTValue
  | datetime (d : DateV) (t : TimeV) (tz : TzV) : DTValue
deriving DecidableEq

/-- `isinstance(x, datetime.datetime)`. -/
def DTValue.isDatetime : DTValue → Bool
  | .datetime _ _ _ => true
  | .dateOnly _ => false

/-- Python `.date()` (the identity on a date). -/
def DTValue.dateOf : DTValue → DateV
  | .dateOnly d => d
  | .datetime d _ _ => d

/-- `threshold.replace(tzinfo=None)`. -/
def stripTzDT : DTValue → DTValue
  | .datetime d t _ => .datetime d t .naive
  | v => v

/-- Days since 1970-01-01 of a civil date (Howard Hinnant's
`days_from_civil`, the algorithm behind `datetime.date.toordinal`). -/
def daysFromCivil (dv : DateV) : Int :=
  let y : Int := if dv.month ≤ 2 then (dv.year : Int) - 1 else (dv.year : Int)
  let era : Int := Int.fdiv y 400
  let yoe : Nat := (y - era * 400).toNat
  let mp : Nat := if 2 < dv.month then dv.month - 3 else dv.month + 9
  let doy : Nat := (153 * mp + 2) / 5 + dv.day - 1
  let doe : Nat := yoe * 365 + yoe / 4 - yoe / 100 + doy
  era * 146097 + (doe : Int) - 719468

/-- Civil date from days since 1970-01-01 (Hinnant's `civil_from_days`). -/
def civilFromDays (z0 : Int) : DateV :=
  let z : Int := z0 + 719468
  let era : Int := Int.fdiv z 146097
  let doe : Nat := (z - era * 146097).toNat
  let yoe : Nat := (doe - doe / 1460 + doe / 36524 - doe / 146096) / 365
  let y : Int := (yoe : Int) + era * 400
  let doy : Nat := doe - (365 * yoe + yoe / 4 - yoe / 100)
  let mp : Nat := (5 * doy + 2) / 153
  let d : Nat := doy - (153 * mp + 2) / 5 + 1
  let m : Nat := if mp < 10 then mp + 3 else mp - 9
  ⟨(if m ≤ 2 then y + 1 else y).toNat, m, d⟩

/-- Seconds into the day of a time of day. -/
def timeSecsV (t : TimeV) : Int :=
  t.hour * 3600 + t.minute * 60 + t.second

/-- Local (wall-clock) seconds since the epoch of a date-time, ignoring any
offset. -/
def localSecs (d : DateV) (t : TimeV) : Int :=
  daysFromCivil d * 86400 + timeSecsV t

/-- Absolute instant (UTC seconds since epoch) of an aware date-time. -/
def instantSecs (d : DateV) (t : TimeV) (m : Int) : Int :=
  localSecs d t - 60 * m

/-- Python subtraction `a - b` of two DTSTART/DTEND values, as the total
seconds of the resulting `timedelta`.  Mixing a date with a datetime, or a
naive with an aware datetime, raises `TypeError`. -/
def pySubSecs : DTValue → DTValue → Except String Int
  | .dateOnly d1, .dateOnly d2 =>
    .ok (86400 * (daysFromCivil d1 - daysFromCivil d2))
  | .datetime d1 t1 .naive, .datetime d2 t2 .naive =>
    .ok (localSecs d1 t1 - localSecs d2 t2)
  | .datetime d1 t1 (.offset m1), .datetime d2 t2 (.offset m2) =>
    .ok (instantSecs d1 t1 m1 - instantSecs d2 t2 m2)
  | _, _ => .error ("TypeError: unsupported operand types for -")

/-- Rebuild a time of day from seconds into the day. -/
def secsToTimeV (n : Int) : TimeV :=
  ⟨(Int.fdiv n 3600).toNat, (Int.emod (Int.fdiv n 60) 60).toNat,
    (Int.emod n 60).toNat⟩

/-- Python `v + timedelta(seconds=secs)`.  Adding a `timedelta` to a `date`
adds only its `.days` component (floor of seconds / 86400); adding to a
`datetime` shifts the wall clock, keeping `tzinfo`. -/
def pyAddSecs (v : DTValue) (secs : Int) : DTValue :=
  match v with
  | .dateOnly d => .dateOnly (civilFromDays (daysFromCivil d + Int.fdiv secs 86400))
  | .datetime d t tz =>
    let tot := localSecs d t + secs
    .datetime (civilFromDays (Int.fdiv tot 86400)) (secsToTimeV (Int.emod tot 86400)) tz

/-- Python `date` comparison (lexicographic on year, month, day). -/
def dateLt (a b : DateV) : Bool :=
  a.year < b.year ||
    (a.year = b.year && (a.month < b.month ||
      (a.month = b.month && a.day < b.day)))

/-- Python date `a >= b`, written the way the specification words it. -/
def dateGe (a b : DateV) : Bool :=
  dateLt b a || a = b

/-- Python naive `datetime` comparison (lexicographic on date then time). -/
def localLt (d1 : DateV) (t1 : TimeV) (d2 : DateV) (t2 : TimeV) : Bool :=
  dateLt d1 d2 || (d1 = d2 &&
    (t1.hour < t2.hour || (t1.hour = t2.hour &&
      (t1.minute < t2.minute || (t1.minute = t2.minute && t1.second < t2.second)))))

/-- Python `<` on two DTSTART-like values.  Comparing a date with a datetime
or a naive with an aware datetime raises `TypeError`. -/
def pyLtDT : DTValue → DTValue → Except String Bool
  | .dateOnly a, .dateOnly b => .ok (dateLt a b)
  | .datetime d1 t1 .naive, .datetime d2 t2 .naive => .ok (localLt d1 t1 d2 t2)
  | .datetime d1 t1 (.offset m1), .datetime d2 t2 (.offset m2) =>
    .ok (decide (instantSecs d1 t1 m1 < instantSecs d2 t2 m2))
  | _, _ => .error ("TypeError: cannot compare")

/-! ### ISO-8601 rendering (`_stringify_dt`, i.e. `.isoformat()`) -/

/-- The ASCII digit for `n < 10`. -/
def digitChar (n : Nat) : Char := Char.ofNat (48 + n)

/-- Two-digit zero-padded decimal rendering (for `n < 100`). -/
def pad2 (n : Nat) : PyStr := [digitChar (n / 10), digitChar (n % 10)]

/-- Four-digit zero-padded decimal rendering (for `n < 10000`). -/
def pad4 (n : Nat) : PyStr :=
  [digitChar (n / 1000), digitChar (n / 100 % 10), digitChar (n / 10 % 10),
    digitChar (n % 10)]

/-- ISO date rendering `YYYY-MM-DD`. -/
def isoDate (d : DateV) : PyStr :=
  pad4 d.year ++ '-' :: pad2 d.month ++ '-' :: pad2 d.day

/-- The offset suffix of `datetime.isoformat()`: empty for a naive value,
`±HH:MM` for a fixed offset. -/
def isoTz : TzV → PyStr
  | .naive => []
  | .offset m =>
    (if 0 ≤ m then '+' else '-') :: pad2 (m.natAbs / 60) ++ ':' :: pad2 (m.natAbs % 60)

/-- The date-time part of `isoformat()` without the offset suffix. -/
def isoLocal (d : DateV) (t : TimeV) : PyStr :=
  isoDate d ++ 'T' :: pad2 t.hour ++ ':' :: pad2 t.minute ++ ':' :: pad2 t.second

/-- `_stringify_dt` of `merge_calendars.py` / `master_script.py`:
`dt_obj.isoformat()`, preserving the stated offset or naivety. -/
def stringifyDT : DTValue → PyStr
  | .dateOnly d => isoDate d
  | .datetime d t tz => isoLocal d t ++ isoTz tz

/-! ### Events, components, feeds -/

/-- The fields of an event the engine ever inspects; everything else is the
opaque payload `other`, preserved verbatim.  `none` in `dtstart` models a
VEVENT without DTSTART (whose `decoded` raises `KeyError`); `duration` is the
DURATION property as total seconds. -/
structure EvData where
  dtstart : Option DTValue
  dtend : Option DTValue
  duration : Option Int
  summary : Option PyStr
  other : List (PyStr × PyStr)
deriving DecidableEq

mutual
inductive Comp : Type where
  | mk (cname : String) (props : EvData) (subs : CompList)
inductive CompList : Type where
  | nil : CompList
  | cons (c : Comp) (cs : CompList) : CompList
end

/-- Component name (`component.name`). -/
def Comp.cname : Comp → String
  | .mk n _ _ => n

/-- Component properties. -/
def Comp.props : Comp → EvData
  | .mk _ p _ => p

/-- Subcomponents. -/
def Comp.subs : Comp → CompList
  | .mk _ _ s => s

/-- `component.subcomponents` as a plain list. -/
def CompList.toList : CompList → List Comp
  | .nil => []
  | .cons c cs => c :: cs.toList

mutual
/-- `component.walk()`: the component followed by the recursive walk of all
its subcomponents, depth first. -/
def Comp.walk : Comp → List Comp
  | .mk n p subs => .mk n p subs :: CompList.walkAll subs
def CompList.walkAll : CompList → List Comp
  | .nil => []
  | .cons c cs => c.walk ++ CompList.walkAll cs
end

mutual
/-- Structural equality of components (Python `==`, used by `list.remove`). -/
def compEqB : Comp → Comp → Bool
  | .mk n p s, .mk n' p' s' => n = n' && p = p' && compsEqB s s'
def compsEqB : CompList → CompList → Bool
  | .nil, .nil => true
  | .cons c cs, .cons d ds => compEqB c d && compsEqB cs ds
  | _, _ => false
end

/-- Replace the summary of an event component (`existing["summary"] = ...`). -/
def Comp.withSummary : Comp → PyStr → Comp
  | .mk n p s, t => .mk n { p with summary := some t } s

/-! ### Event identity key (`event_key`, identical in both files) -/

/-- An event's dedup key: `(stringified start, stringified end or None,
is_all_day)`. -/
abbrev EventKey := PyStr × Option PyStr × Bool

/-- `event_key` of `merge_calendars.py` lines 66-76 (textually identical in
`master_script.py` lines 155-159): decode DTSTART (KeyError if absent),
DTEND if present, flag all-day iff DTSTART is not a datetime, and stringify
without changing zones. -/
def event_key (e : EvData) : Except String EventKey :=
  match e.dtstart with
  | none => .error ("KeyError: DTSTART")
  | some dtstart =>
    let dtend := e.dtend
    let is_all_day := !dtstart.isDatetime
    .ok (stringifyDT dtstart, dtend.map stringifyDT, is_all_day)

/-! ### Duration filter (`event_duration_days`, `merge_calendars.py` 82-101) -/

/-- The branch of `event_duration_days` after `dtend` is determined:
for a date-only start return `(dtend - dtstart).days` as a float, otherwise
`(dtend - dtstart).total_seconds() / 86400.0` (embedded exactly in `ℚ`). -/
def durKernel (dtstart dtend : DTValue) : Except String Rat :=
  if !dtstart.isDatetime then
    match pySubSecs dtend dtstart with
    | .error e => .error e
    | .ok delta => .ok ((Int.fdiv delta 86400 : Int) : Rat)
  else
    match pySubSecs dtend dtstart with
    | .error e => .error e
    | .ok delta => .ok ((delta : Rat) / 86400)

/-- `event_duration_days`: decode DTSTART; take DTEND if present, else
DTSTART + DURATION if present, else return `0.0`. -/
def event_duration_days (e : EvData) : Except String Rat :=
  match e.dtstart with
  | none => .error ("KeyError: DTSTART")
  | some dtstart =>
    match e.dtend with
    | some dtend => durKernel dtstart dtend
    | none =>
      match e.duration with
      | some secs => durKernel dtstart (pyAddSecs dtstart secs)
      | none => .ok 0

/-! ### Merge accumulator and merge-engine steps -/

/-- An item of the merged output component sequence.  A merged event is
stored by key: the Python code aliases the very object held in the `seen`
dict, so later summary folding is visible in the output. -/
inductive OutItem : Type where
  | passthrough (c : Comp) : OutItem
  | eventRef (k : EventKey) : OutItem

/-- The state of one merge run: the output component sequence and the
`seen_events` dict (association list in insertion order, keys unique). -/
structure MState where
  output : List OutItem
  seen : List (EventKey × Comp)

/-- Dict lookup. -/
def lookupKey (k : EventKey) : List (EventKey × Comp) → Option Comp
  | [] => none
  | (k', c) :: rest => if k' = k then some c else lookupKey k rest

/-- Dict update of an existing key (in place, order preserved). -/
def updateKey (k : EventKey) (c : Comp) : List (EventKey × Comp) → List (EventKey × Comp)
  | [] => []
  | (k', c') :: rest =>
    if k' = k then (k', c) :: rest else (k', c') :: updateKey k c rest

/-- The prefixed clone's properties: the candidate's properties with the
summary replaced by the prefixed summary (`new_event["summary"] =
vText(prefixed_summary)` applied to the clone). -/
def prefixedProps (pre : PyStr) (e : EvData) : EvData :=
  ⟨e.dtstart, e.dtend, e.duration, some (applyPre pre (e.summary.getD [])), e.other⟩

/-- The dedup-and-insert stage shared by the loop body of
`merge_calendars.main` (lines 148-163): prefix the summary, compute the key,
fold into an existing event or insert a fresh one. -/
def dedupInsertMC (pre : PyStr) (s : MState) (c : Comp) : Except String MState :=
  let prefixed := applyPre pre (c.props.summary.getD [])
  let e' : EvData := prefixedProps pre c.props
  match event_key e' with
  | .error e => .error e
  | .ok key =>
    match lookupKey key s.seen with
    | some ex =>
      match ex.props.summary with
      | none => .error ("KeyError: SUMMARY")
      | some exSummary =>
        if prefixed ∈ splitCommaSpace exSummary then .ok s
        else .ok ⟨s.output,
          updateKey key (ex.withSummary (exSummary ++ ',' :: ' ' :: prefixed)) s.seen⟩
    | none =>
      .ok ⟨s.output ++ [.eventRef key], s.seen ++ [(key, Comp.mk c.cname e' c.subs)]⟩

/-- One iteration of the `for component in cal.walk()` loop of
`merge_calendars.main` (lines 136-163): pass through non-events other than
the VCALENDAR marker; filter events strictly longer than `MAX_DAYS = 2` days;
then dedup-insert. -/
def mergeStepMC (pre : PyStr) (s : MState) (c : Comp) : Except String MState :=
  if c.cname ≠ "VEVENT" then
    .ok (if c.cname = "VCALENDAR" then s
      else ⟨s.output ++ [.passthrough c], s.seen⟩)
  else
    match event_duration_days c.props with
    | .error e => .error e
    | .ok days =>
      if days > 2 then .ok s
      else dedupInsertMC pre s c

/-- One iteration of the loop body of `master_script.build_merged_calendar`
(lines 225-246): same shape as `mergeStepMC` but with NO duration filter and
with the stripped-parts summary folding. -/
def mergeStepMS (pre : PyStr) (s : MState) (c : Comp) : Except String MState :=
  if c.cname ≠ "VEVENT" then
    .ok (if c.cname = "VCALENDAR" then s
      else ⟨s.output ++ [.passthrough c], s.seen⟩)
  else
    let prefixed := applyPre pre (c.props.summary.getD [])
    let e' : EvData := prefixedProps pre c.props
    match event_key e' with
    | .error e => .error e
    | .ok key =>
      match lookupKey key s.seen with
      | some ex =>
        match ex.props.summary with
        | none => .error ("KeyError: SUMMARY")
        | some exSummary =>
          let parts := if exSummary ≠ [] then (splitCommaSpace exSummary).map pyStrip else []
          if prefixed ∈ parts then .ok s
          else .ok ⟨s.output,
            updateKey key (ex.withSummary
              (if exSummary ≠ [] then exSummary ++ ',' :: ' ' :: prefixed else prefixed)) s.seen⟩
      | none =>
        .ok ⟨s.output ++ [.eventRef key], s.seen ++ [(key, Comp.mk c.cname e' c.subs)]⟩

/-- One iteration of the loop body of `merge_calendars_backup.py` (lines
71-87): pass through non-events, prefix event summaries, no duration filter
and no dedup at all. -/
def mergeStepBK (pre : PyStr) (out : List Comp) (c : Comp) : List Comp :=
  if c.cname ≠ "VEVENT" then
    (if c.cname = "VCALENDAR" then out else out ++ [c])
  else
    let summary := c.props.summary.getD []
    out ++ [if pre.isPrefixOf summary then c else c.withSummary (pre ++ summary)]

/-- Run a merge step over a list of walked components, propagating the first
uncaught exception. -/
def runComps (step : MState → Comp → Except String MState) :
    MState → List Comp → Except String MState
  | s, [] => .ok s
  | s, c :: cs =>
    match step s c with
    | .error e => .error e
    | .ok s' => runComps step s' cs

/-- Process one fetched source feed with the `merge_calendars.py` engine. -/
def processSourceMC (pre : PyStr) (s : MState) (feed : Comp) : Except String MState :=
  runComps (mergeStepMC pre) s feed.walk

/-- Process one fetched source feed with the `master_script.py` engine. -/
def processSourceMS (pre : PyStr) (s : MState) (feed : Comp) : Except String MState :=
  runComps (mergeStepMS pre) s feed.walk

/-- The merged events of a state, resolved through the `seen` dict (summary
folds mutate the shared object, so the output sees them). -/
def outputEventComps (s : MState) : List Comp :=
  s.output.filterMap (fun item =>
    match item with
    | .eventRef k => lookupKey k s.seen
    | .passthrough _ => none)

/-- The passed-through non-event components of a state, in order. -/
def passthroughComps (s : MState) : List Comp :=
  s.output.filterMap (fun item =>
    match item with
    | .passthrough c => some c
    | .eventRef _ => none)

attribute [local semireducible] Rat.mul Rat.inv Rat.add Rat.sub

deriving instance DecidableEq for Except
deriving instance DecidableEq for Comp
deriving instance DecidableEq for OutItem
deriving instance DecidableEq for MState

/-! ### Recency filter of `master_script.py` (`filter_recent_events`, 130-148) -/

/-- The per-event keep decision of `filter_recent_events`: an aware start is
compared against the threshold directly, a naive start against the threshold
with its offset stripped, a date-only start against `threshold.date()`; the
event is kept iff `dtstart < thresh` is false. -/
def keepEventQ (threshold : DTValue) (e : EvData) : Except String Bool :=
  match e.dtstart with
  | none => .error ("KeyError: DTSTART")
  | some dtstart =>
    match dtstart with
    | .datetime d t tz =>
      let thresh := match tz with
        | .naive => stripTzDT threshold
        | .offset _ => threshold
      match pyLtDT (.datetime d t tz) thresh with
      | .error e => .error e
      | .ok lt => .ok (!lt)
    | .dateOnly d => .ok (!dateLt d threshold.dateOf)

/-- `filter_recent_events` over the top-level subcomponents of a calendar:
non-events are copied through; events are kept iff their keep decision is
true; a missing DTSTART propagates `KeyError`. -/
def filter_recent_events (threshold : DTValue) : List Comp → Except String (List Comp)
  | [] => .ok []
  | c :: cs =>
    if c.cname ≠ "VEVENT" then
      match filter_recent_events threshold cs with
      | .error e => .error e
      | .ok out => .ok (c :: out)
    else
      match keepEventQ threshold c.props with
      | .error e => .error e
      | .ok true =>
        match filter_recent_events threshold cs with
        | .error e => .error e
        | .ok out => .ok (c :: out)
      | .ok false => filter_recent_events threshold cs

/-- The recency-keep rule in the words of the specification (§4.3): keep iff
the start is **not before** the cutoff; aware starts compare directly, naive
starts against a naive cutoff, date-only starts by `start.date() >=
cutoff.date()`. -/
def keepIfRecentSpec (cutoff : DTValue) (start : DTValue) : Except String Bool :=
  match start with
  | .datetime d t (.offset m) =>
    match pyLtDT (.datetime d t (.offset m)) cutoff with
    | .error e => .error e
    | .ok lt => .ok (!lt)
  | .datetime d t .naive =>
    match pyLtDT (.datetime d t .naive) (stripTzDT cutoff) with
    | .error e => .error e
    | .ok lt => .ok (!lt)
  | .dateOnly d => .ok (dateGe d cutoff.dateOf)

/-! ### Recency pruning of `download_calendars.py` (`remove_old_events`, 56-75) -/

/-- `start_of_last_week`: the Monday of last week
(`today - timedelta(days=today.weekday() + 7)`). -/
def pyWeekday (d : DateV) : Nat := (Int.emod (daysFromCivil d + 3) 7).toNat

/-- Subtract whole days from a date. -/
def dateSubDays (d : DateV) (n : Nat) : DateV :=
  civilFromDays (daysFromCivil d - n)

/-- `start_of_last_week(today)`. -/
def start_of_last_week (today : DateV) : DateV :=
  dateSubDays today (pyWeekday today + 7)

/-- The end date used by `remove_old_events`: DTEND if present else DTSTART,
reduced to its date. -/
def endDateOf (c : Comp) : Except String DateV :=
  match (match c.props.dtend with | some v => some v | none => c.props.dtstart) with
  | none => .error ("KeyError: DTSTART")
  | some v => .ok v.dateOf

/-- Collect the walked VEVENTs whose end date is strictly before the
threshold (`to_remove`). -/
def collectOld (threshold : DateV) : List Comp → Except String (List Comp)
  | [] => .ok []
  | c :: cs =>
    if c.cname ≠ "VEVENT" then collectOld threshold cs
    else
      match endDateOf c with
      | .error e => .error e
      | .ok d =>
        if dateLt d threshold then
          match collectOld threshold cs with
          | .error e => .error e
          | .ok rest => .ok (c :: rest)
        else collectOld threshold cs

/-- Python `list.remove`: drop the first equal element, `ValueError` if
absent. -/
def removeFirstComp (x : Comp) : List Comp → Except String (List Comp)
  | [] => .error ("ValueError: list.remove(x): x not in list")
  | c :: cs =>
    if compEqB c x then .ok cs
    else
      match removeFirstComp x cs with
      | .error e => .error e
      | .ok rest => .ok (c :: rest)

/-- Remove each collected component in turn from the subcomponent list. -/
def removeAllComps : List Comp → List Comp → Except String (List Comp)
  | l, [] => .ok l
  | l, x :: xs =>
    match removeFirstComp x l with
    | .error e => .error e
    | .ok l' => removeAllComps l' xs

/-- `remove_old_events(cal, threshold)`: walk the calendar for VEVENTs whose
end date is before the threshold, then remove them (in place) from
`cal.subcomponents`; returns the surviving subcomponent list. -/
def remove_old_events (threshold : DateV) (cal : Comp) : Except String (List Comp) :=
  match collectOld threshold cal.walk with
  | .error e => .error e
  | .ok olds => removeAllComps cal.subs.toList olds

/-! ### The source loop of `merge_calendars.main` (lines 117-134) -/

/-- A source descriptor together with the oracle outcome of its fetch+parse
(`download_ics`): the network and the parser are external collaborators, so
their result is part of the input. -/
structure SourceDesc where
  enabled : Bool
  sname : String
  pre : PyStr
  url : Option PyStr
  fetched : Except String Comp

/-- What the loop reports for a skipped source: `"Skipping {name}: {e}"`
carries the source name; the download-failure line `"Failed ({e});
skipping."` does not. -/
inductive Report : Type where
  | skipName (sname reason : String) : Report
  | failNoName (reason : String) : Report
deriving DecidableEq

/-- Prepend a report to a loop outcome. -/
def withReport (r : Report) :
    Except String (MState × List Report) → Except String (MState × List Report)
  | .error e => .error e
  | .ok (s, rs) => .ok (s, r :: rs)

/-- The source loop of `merge_calendars.main`: skip disabled sources
silently; skip sources with a missing or malformed URL, reporting name and
reason; skip sources whose fetch/parse fails, reporting the reason only;
process fetched feeds with the merge engine, propagating any uncaught
per-event exception (which aborts the whole run). -/
def runSourcesMC : MState → List SourceDesc → Except String (MState × List Report)
  | s, [] => .ok (s, [])
  | s, src :: rest =>
    if !src.enabled then runSourcesMC s rest
    else
      match src.url with
      | none =>
        withReport (.skipName src.sname "KeyError: URL") (runSourcesMC s rest)
      | some u =>
        match findHttp u with
        | none =>
          withReport (.skipName src.sname "ValueError: Invalid URL string")
            (runSourcesMC s rest)
        | some _ =>
          match src.fetched with
          | .error msg => withReport (.failNoName msg) (runSourcesMC s rest)
          | .ok feed =>
            match processSourceMC src.pre s feed with
            | .error e => .error e
            | .ok s' => runSourcesMC s' rest

/-- The skip conditions of the source loop, with the reports they generate:
`none` means the source is actually processed. -/
def skipReportsOf (src : SourceDesc) : Option (List Report) :=
  if !src.enabled then some []
  else
    match src.url with
    | none => some [.skipName src.sname "KeyError: URL"]
    | some u =>
      match findHttp u with
      | none => some [.skipName src.sname "ValueError: Invalid URL string"]
      | some _ =>
        match src.fetched with
        | .error msg => some [.failNoName msg]
        | .ok _ => none

/-! ### String-layer lemmas -/

theorem consHead_ne_nil (c : Char) (xs : List PyStr) : consHead c xs ≠ [] := by
  cases xs <;> simp [consHead]

theorem splitCS_ne_nil : ∀ s : PyStr, splitCommaSpace s ≠ []
  | [] => by simp [splitCommaSpace]
  | [c] => by simp [splitCommaSpace]
  | c :: c2 :: rest => by
    by_cases h : c = ',' ∧ c2 = ' '
    · simp [splitCommaSpace, h]
    · simp only [splitCommaSpace, if_neg h]
      exact consHead_ne_nil c _

theorem consHead_append (c : Char) (xs ys : List PyStr) (h : xs ≠ []) :
    consHead c (xs ++ ys) = consHead c xs ++ ys := by
  cases xs with
  | nil => exact absurd rfl h
  | cons x xt => simp [consHead]

/-- A separator-free string splits into itself alone. -/
theorem sepFree_split : ∀ p : PyStr, sepFree p = true → splitCommaSpace p = [p]
  | [], _ => rfl
  | [c], _ => rfl
  | c :: c2 :: rest, hp => by
    have h : ¬(c = ',' ∧ c2 = ' ') := by
      intro h
      simp [sepFree, h.1, h.2] at hp
    have hp' : sepFree (c2 :: rest) = true := by
      simpa [sepFree, if_neg h] using hp
    simp [splitCommaSpace, if_neg h, sepFree_split (c2 :: rest) hp', consHead]

/-- Appending `", " ++ p` (with `p` separator-free) to any string appends the
single part `p` to its split. -/
theorem split_append_sep : ∀ (a p : PyStr), sepFree p = true →
    splitCommaSpace (a ++ ',' :: ' ' :: p) = splitCommaSpace a ++ [p]
  | [], p, hp => by simp [splitCommaSpace, sepFree_split p hp]
  | [c], p, hp => by
    simp [splitCommaSpace, sepFree_split p hp, consHead,
      (by decide : (',' : Char) ≠ ' ')]
  | c :: c2 :: rest, p, hp => by
    by_cases h : c = ',' ∧ c2 = ' '
    · obtain ⟨hc, hc2⟩ := h
      subst hc; subst hc2
      simp [splitCommaSpace, split_append_sep rest p hp]
    · have ih := split_append_sep (c2 :: rest) p hp
      simp only [List.cons_append] at ih
      simp only [List.cons_append, splitCommaSpace, List.append_eq, if_neg h]
      rw [ih, consHead_append c _ _ (splitCS_ne_nil (c2 :: rest))]

theorem applyPre_isPrefix (pre s : PyStr) : pre.isPrefixOf (applyPre pre s) = true := by
  unfold applyPre
  by_cases h : pre.isPrefixOf s
  · rw [if_pos h]; exact h
  · rw [if_neg h]
    simp [List.isPrefixOf_iff_prefix]

/-- C8: prefixing is idempotent — the prefix step prepends the source prefix
unless the summary already starts with that exact prefix, and applying the
step twice yields exactly the same summary as applying it once. -/
theorem claim_c8_prefix_idempotent (pre s : PyStr) :
    applyPre pre (applyPre pre s) = applyPre pre s ∧
    applyPre pre s = (if pre.isPrefixOf s then s else pre ++ s) := by
  refine ⟨?_, rfl⟩
  have h := applyPre_isPrefix pre s
  show (if pre.isPrefixOf (applyPre pre s) then applyPre pre s
    else pre ++ applyPre pre s) = applyPre pre s
  rw [if_pos h]

/-- C10: folding the same duplicate's prefixed summary into a stored summary
a second time leaves the stored summary unchanged, provided the prefixed
summary contains no `", "` (and, for the `master_script.py` variant, strips
to itself). -/
theorem claim_c10_fold_idempotent (es p : PyStr) (hp : sepFree p = true) :
    foldSummaryMC (foldSummaryMC es p) p = foldSummaryMC es p ∧
    (pyStrip p = p →
      foldSummaryMS (foldSummaryMS es p) p = foldSummaryMS es p) := by
  constructor
  · unfold foldSummaryMC
    by_cases h : p ∈ splitCommaSpace es
    · simp [h]
    · simp only [if_neg h]
      have : p ∈ splitCommaSpace (es ++ ',' :: ' ' :: p) := by
        rw [split_append_sep es p hp]
        exact List.mem_append_right _ (List.mem_singleton.mpr rfl)
      simp [this]
  · intro hstrip
    by_cases hes : es = []
    · subst hes
      have h1 : foldSummaryMS [] p = p := by simp [foldSummaryMS]
      rw [h1]
      by_cases hpn : p = []
      · subst hpn; simp [foldSummaryMS]
      · have hmem : p ∈ (splitCommaSpace p).map pyStrip := by
          rw [sepFree_split p hp]
          simp [hstrip]
        simp [foldSummaryMS, hpn, hmem]
    · unfold foldSummaryMS
      simp only [ne_eq, hes, not_false_eq_true, if_true]
      by_cases h : p ∈ (splitCommaSpace es).map pyStrip
      · simp [h, hes]
      · simp only [if_neg h]
        have hne : es ++ ',' :: ' ' :: p ≠ [] := by simp
        have hmem : p ∈ (splitCommaSpace (es ++ ',' :: ' ' :: p)).map pyStrip := by
          rw [split_append_sep es p hp]
          simp [hstrip]
        simp [hne, hmem]

/-- Witness for C10 at a concrete stored summary and duplicate summary. -/
theorem claim_c10_fold_idempotent_witness :
    foldSummaryMC (foldSummaryMC ("[A] Standup".toList) ("[B] Daily Sync".toList))
        ("[B] Daily Sync".toList) =
      foldSummaryMC ("[A] Standup".toList) ("[B] Daily Sync".toList) ∧
    foldSummaryMS (foldSummaryMS ("[A] Standup".toList) ("[B] Daily Sync".toList))
        ("[B] Daily Sync".toList) =
      foldSummaryMS ("[A] Standup".toList) ("[B] Daily Sync".toList) :=
  ⟨(claim_c10_fold_idempotent ("[A] Standup".toList) ("[B] Daily Sync".toList)
      (by decide)).1,
   (claim_c10_fold_idempotent ("[A] Standup".toList) ("[B] Daily Sync".toList)
      (by decide)).2 (by decide)⟩

/-! ### Injectivity of the ISO rendering in the offset part -/

theorem digitChar_inj : ∀ a, a < 10 → ∀ b, b < 10 →
    digitChar a = digitChar b → a = b := by decide

theorem isoTz_offset_inj (m1 m2 : Int) (h1 : m1.natAbs < 1440)
    (h2 : m2.natAbs < 1440) (h : isoTz (.offset m1) = isoTz (.offset m2)) :
    m1 = m2 := by
  simp only [isoTz, pad2, List.cons_append, List.nil_append, List.cons.injEq,
    List.nil_eq] at h
  obtain ⟨hsign, ha, hb, -, hc, hd, -⟩ := h
  have e1 : m1.natAbs / 60 / 10 = m2.natAbs / 60 / 10 :=
    digitChar_inj _ (by omega) _ (by omega) ha
  have e2 : m1.natAbs / 60 % 10 = m2.natAbs / 60 % 10 :=
    digitChar_inj _ (by omega) _ (by omega) hb
  have e3 : m1.natAbs % 60 / 10 = m2.natAbs % 60 / 10 :=
    digitChar_inj _ (by omega) _ (by omega) hc
  have e4 : m1.natAbs % 60 % 10 = m2.natAbs % 60 % 10 :=
    digitChar_inj _ (by omega) _ (by omega) hd
  have habs : m1.natAbs = m2.natAbs := by omega
  by_cases hs1 : (0 : Int) ≤ m1 <;> by_cases hs2 : (0 : Int) ≤ m2
  · omega
  · rw [if_pos hs1, if_neg hs2] at hsign
    exact absurd hsign (by decide)
  · rw [if_neg hs1, if_pos hs2] at hsign
    exact absurd hsign (by decide)
  · omega

theorem isoLocal_length (d : DateV) (t : TimeV) : (isoLocal d t).length = 19 := by
  simp [isoLocal, isoDate, pad4, pad2]

/-- C4: for every event with a start value, the identity key is the triple of
the ISO rendering of the start (preserving stated offset or naivety), the ISO
rendering of the end or `none`, and the all-day flag (true iff the start is
date-only); the key depends only on the timing fields, hence not on source
ordering; and two aware starts at the same absolute instant but with
different stated offsets receive different keys. -/
theorem claim_c4_event_key :
    (∀ (e : EvData) (v : DTValue), e.dtstart = some v →
      event_key e = .ok (stringifyDT v, e.dtend.map stringifyDT, !v.isDatetime)) ∧
    (∀ (e1 e2 : EvData), e1.dtstart = e2.dtstart → e1.dtend = e2.dtend →
      event_key e1 = event_key e2) ∧
    (∀ (e1 e2 : EvData) (d1 d2 : DateV) (t1 t2 : TimeV) (m1 m2 : Int),
      e1.dtstart = some (.datetime d1 t1 (.offset m1)) →
      e2.dtstart = some (.datetime d2 t2 (.offset m2)) →
      m1.natAbs < 1440 → m2.natAbs < 1440 →
      instantSecs d1 t1 m1 = instantSecs d2 t2 m2 → m1 ≠ m2 →
      event_key e1 ≠ event_key e2) := by
  refine ⟨?_, ?_, ?_⟩
  · intro e v hv
    simp [event_key, hv]
  · intro e1 e2 h1 h2
    simp [event_key, h1, h2]
  · intro e1 e2 d1 d2 t1 t2 m1 m2 hv1 hv2 hm1 hm2 _ hne hkeys
    apply hne
    simp only [event_key, hv1, hv2, Except.ok.injEq, Prod.mk.injEq] at hkeys
    have hstr : stringifyDT (.datetime d1 t1 (.offset m1)) =
        stringifyDT (.datetime d2 t2 (.offset m2)) := hkeys.1
    simp only [stringifyDT] at hstr
    have := List.append_inj hstr (by rw [isoLocal_length, isoLocal_length])
    exact isoTz_offset_inj m1 m2 hm1 hm2 this.2

/-- Witness for C4: a concrete event's key, and two events denoting the same
absolute instant (10:00 UTC vs 11:00 at +01:00) receiving different keys. -/
theorem claim_c4_event_key_witness :
    event_key ⟨some (.datetime ⟨2024, 1, 1⟩ ⟨10, 0, 0⟩ (.offset 0)),
        some (.datetime ⟨2024, 1, 1⟩ ⟨11, 0, 0⟩ (.offset 0)), none,
        some ("Standup".toList), []⟩ =
      .ok (("2024-01-01T10:00:00+00:00".toList),
        some ("2024-01-01T11:00:00+00:00".toList), false) ∧
    event_key (⟨some (.datetime ⟨2024, 1, 1⟩ ⟨10, 0, 0⟩ (.offset 0)),
        none, none, none, []⟩ : EvData) ≠
      event_key (⟨some (.datetime ⟨2024, 1, 1⟩ ⟨11, 0, 0⟩ (.offset 60)),
        none, none, none, []⟩ : EvData) := by
  constructor
  · rw [claim_c4_event_key.1 _ _ rfl]
    decide
  · exact claim_c4_event_key.2.2 _ _ _ _ _ _ 0 60 rfl rfl (by decide) (by decide)
      (by decide) (by decide)

/-! ### Accumulator (dict) lemmas -/

theorem lookupKey_update_self (k : EventKey) (v : Comp) :
    ∀ l, (lookupKey k l).isSome → lookupKey k (updateKey k v l) = some v
  | [], h => by simp [lookupKey] at h
  | (k', c') :: rest, h => by
    by_cases hk : k' = k
    · subst hk
      simp [lookupKey, updateKey]
    · simp only [lookupKey, updateKey, if_neg hk] at h ⊢
      exact lookupKey_update_self k v rest h

theorem lookupKey_update_other (k k' : EventKey) (v : Comp) (hk : k' ≠ k) :
    ∀ l, lookupKey k' (updateKey k v l) = lookupKey k' l
  | [] => by simp [updateKey]
  | (k'', c'') :: rest => by
    by_cases h2 : k'' = k
    · subst h2
      have hne : ¬(k'' = k') := fun h => hk h.symm
      simp [lookupKey, updateKey, hne]
    · simp only [updateKey, if_neg h2, lookupKey]
      rw [lookupKey_update_other k k' v hk rest]

theorem lookupKey_append (k : EventKey) :
    ∀ l l', lookupKey k (l ++ l') =
      match lookupKey k l with
      | some c => some c
      | none => lookupKey k l'
  | [], l' => by simp [lookupKey]
  | (k', c') :: rest, l' => by
    by_cases hk : k' = k
    · simp [lookupKey, hk]
    · simp only [List.cons_append, lookupKey, if_neg hk]
      exact lookupKey_append k rest l'

theorem withSummary_self (ex : Comp) (es : PyStr)
    (h : ex.props.summary = some es) : ex.withSummary es = ex := by
  cases ex with
  | mk n p subs =>
    simp only [Comp.props] at h
    cases p
    simp only [Comp.withSummary]
    simp_all

/-- C1: when a candidate event (VEVENT, within the duration bound) has an
identity key already present in the accumulator, the `merge_calendars.py`
engine folds instead of inserting: the output gains no second event; the
stored event's summary becomes `foldSummaryMC` of the old summary and the
new prefixed summary (split on `", "`, append joined by `", "` iff not
already a part, first-seen order); all other keys are untouched. -/
theorem claim_c1_fold (pre : PyStr) (s : MState) (c : Comp) (days : Rat)
    (key : EventKey) (ex : Comp) (exSummary : PyStr)
    (hev : c.cname = "VEVENT")
    (hdur : event_duration_days c.props = .ok days)
    (hshort : ¬days > 2)
    (hkey : event_key (prefixedProps pre c.props) = .ok key)
    (hlook : lookupKey key s.seen = some ex)
    (hsum : ex.props.summary = some exSummary) :
    ∃ s', mergeStepMC pre s c = .ok s' ∧
      s'.output = s.output ∧
      lookupKey key s'.seen = some (ex.withSummary
        (foldSummaryMC exSummary (applyPre pre (c.props.summary.getD [])))) ∧
      ∀ k', k' ≠ key → lookupKey k' s'.seen = lookupKey k' s.seen := by
  unfold mergeStepMC dedupInsertMC
  rw [if_neg (by simp [hev]), hdur]
  simp only [if_neg hshort, hkey, hlook, hsum]
  by_cases hmem : applyPre pre (c.props.summary.getD []) ∈ splitCommaSpace exSummary
  · refine ⟨s, by simp [hmem], rfl, ?_, fun _ _ => rfl⟩
    rw [hlook]
    unfold foldSummaryMC
    rw [if_pos hmem, withSummary_self ex exSummary hsum]
  · refine ⟨⟨s.output, updateKey key (ex.withSummary
      (exSummary ++ ',' :: ' ' :: applyPre pre (c.props.summary.getD []))) s.seen⟩,
      by simp [hmem], rfl, ?_, ?_⟩
    · show lookupKey key (updateKey key _ s.seen) = _
      rw [lookupKey_update_self key _ s.seen (by simp [hlook])]
      unfold foldSummaryMC
      rw [if_neg hmem]
    · intro k' hk'
      exact lookupKey_update_other key k' _ hk' s.seen

/-! ### Concrete two-source scenario (spec §8 end-to-end) -/

/-- Source A's event: `"Standup"`, 2024-01-01 10:00-11:00 UTC. -/
def evStandup : EvData :=
  ⟨some (.datetime ⟨2024, 1, 1⟩ ⟨10, 0, 0⟩ (.offset 0)),
   some (.datetime ⟨2024, 1, 1⟩ ⟨11, 0, 0⟩ (.offset 0)), none,
   some ("Standup".toList), []⟩

/-- Source B's event: `"Daily Sync"`, identical timing and stated offset. -/
def evDailySync : EvData :=
  ⟨some (.datetime ⟨2024, 1, 1⟩ ⟨10, 0, 0⟩ (.offset 0)),
   some (.datetime ⟨2024, 1, 1⟩ ⟨11, 0, 0⟩ (.offset 0)), none,
   some ("Daily Sync".toList), []⟩

def compStandup : Comp := .mk "VEVENT" evStandup .nil

def compDailySync : Comp := .mk "VEVENT" evDailySync .nil

def feedSrcA : Comp :=
  .mk "VCALENDAR" ⟨none, none, none, none, []⟩ (.cons compStandup .nil)

def feedSrcB : Comp :=
  .mk "VCALENDAR" ⟨none, none, none, none, []⟩ (.cons compDailySync .nil)

def srcDescA : SourceDesc :=
  ⟨true, "A", "[A] ".toList, some ("http://a.example/cal.ics".toList), .ok feedSrcA⟩

def srcDescB : SourceDesc :=
  ⟨true, "B", "[B] ".toList, some ("http://b.example/cal.ics".toList), .ok feedSrcB⟩

/-- The shared identity key of the two scenario events. -/
def keyStandup : EventKey :=
  ("2024-01-01T10:00:00+00:00".toList,
   some ("2024-01-01T11:00:00+00:00".toList), false)

/-- The stored event after source A is processed. -/
def exStandup : Comp :=
  .mk "VEVENT"
    ⟨some (.datetime ⟨2024, 1, 1⟩ ⟨10, 0, 0⟩ (.offset 0)),
     some (.datetime ⟨2024, 1, 1⟩ ⟨11, 0, 0⟩ (.offset 0)), none,
     some ("[A] Standup".toList), []⟩ .nil

/-- The merge state after source A is processed. -/
def stateAfterA : MState :=
  ⟨[.eventRef keyStandup], [(keyStandup, exStandup)]⟩

/-- Witness for C1: in the two-source scenario the merged output contains
exactly one event, with summary `"[A] Standup, [B] Daily Sync"`, and the fold
theorem applies at source B's duplicate. -/
theorem claim_c1_fold_witness :
    (runSourcesMC ⟨[], []⟩ [srcDescA, srcDescB]).map
        (fun p => ((outputEventComps p.1).map (fun c => c.props.summary), p.2)) =
      .ok ([some ("[A] Standup, [B] Daily Sync".toList)], []) ∧
    processSourceMC ("[A] ".toList) ⟨[], []⟩ feedSrcA = .ok stateAfterA ∧
    (∃ s', mergeStepMC ("[B] ".toList) stateAfterA compDailySync = .ok s' ∧
      s'.output = stateAfterA.output ∧
      lookupKey keyStandup s'.seen = some (exStandup.withSummary
        (foldSummaryMC ("[A] Standup".toList)
          (applyPre ("[B] ".toList) (compDailySync.props.summary.getD [])))) ∧
      ∀ k', k' ≠ keyStandup →
        lookupKey k' s'.seen = lookupKey k' stateAfterA.seen) :=
  ⟨by decide, by decide,
   claim_c1_fold ("[B] ".toList) stateAfterA compDailySync (1 / 24) keyStandup
     exStandup ("[A] Standup".toList) rfl (by decide) (by decide) (by decide)
     (by decide) (by decide)⟩

/-- All fields of a stored event except the summary coincide: name, timing
(start/end, hence timezone representation), duration, opaque payload and
subcomponents. -/
def sameExceptSummary (a b : Comp) : Prop :=
  a.cname = b.cname ∧ a.props.dtstart = b.props.dtstart ∧
  a.props.dtend = b.props.dtend ∧ a.props.duration = b.props.duration ∧
  a.props.other = b.props.other ∧ a.subs = b.subs

theorem sameExceptSummary_rfl (a : Comp) : sameExceptSummary a a :=
  ⟨rfl, rfl, rfl, rfl, rfl, rfl⟩

theorem withSummary_sameExcept (x : Comp) (t : PyStr) :
    sameExceptSummary (x.withSummary t) x := by
  cases x with
  | mk n p subs =>
    cases p
    exact ⟨rfl, rfl, rfl, rfl, rfl, rfl⟩

/-- The candidate event actually stored on first insertion: the clone of `c`
with its summary prefixed. -/
def insertedComp (pre : PyStr) (c : Comp) : Comp :=
  Comp.mk c.cname (prefixedProps pre c.props) c.subs

/-- Case analysis on what one merge step does to the `seen` dict: nothing, a
summary-only update of one stored entry, or a first insertion of the
prefixed candidate. -/
theorem mergeStep_seen_cases (pre : PyStr) (s : MState) (c : Comp)
    (s' : MState)
    (h : mergeStepMC pre s c = .ok s' ∨ mergeStepMS pre s c = .ok s') :
    s'.seen = s.seen ∨
    (∃ key x t, lookupKey key s.seen = some x ∧
      s'.seen = updateKey key (x.withSummary t) s.seen) ∨
    (∃ key, lookupKey key s.seen = none ∧
      event_key (insertedComp pre c).props = .ok key ∧
      s'.seen = s.seen ++ [(key, insertedComp pre c)]) := by
  have hded : ∀ u : MState,
      dedupInsertMC pre s c = .ok u →
      u.seen = s.seen ∨
      (∃ key x t, lookupKey key s.seen = some x ∧
        u.seen = updateKey key (x.withSummary t) s.seen) ∨
      (∃ key, lookupKey key s.seen = none ∧
        event_key (insertedComp pre c).props = .ok key ∧
        u.seen = s.seen ++ [(key, insertedComp pre c)]) := by
    intro u hu
    unfold dedupInsertMC at hu
    simp only [] at hu
    cases hkey : event_key (prefixedProps pre c.props) with
    | error e => rw [hkey] at hu; exact absurd hu (by simp)
    | ok key =>
      rw [hkey] at hu
      simp only [] at hu
      cases hlook : lookupKey key s.seen with
      | some ex =>
        rw [hlook] at hu
        simp only [] at hu
        cases hsum : ex.props.summary with
        | none => rw [hsum] at hu; exact absurd hu (by simp)
        | some es =>
          rw [hsum] at hu
          simp only [] at hu
          by_cases hmem : applyPre pre (c.props.summary.getD []) ∈
              splitCommaSpace es
          · rw [if_pos hmem] at hu
            left; cases hu; rfl
          · rw [if_neg hmem] at hu
            right; left
            refine ⟨key, ex, es ++ ',' :: ' ' :: applyPre pre (c.props.summary.getD []),
              hlook, ?_⟩
            cases hu; rfl
      | none =>
        rw [hlook] at hu
        simp only [] at hu
        right; right
        refine ⟨key, hlook, hkey, ?_⟩
        cases hu; rfl
  rcases h with h | h
  · unfold mergeStepMC at h
    by_cases hev : c.cname = "VEVENT"
    · rw [if_neg (by simp [hev])] at h
      cases hdur : event_duration_days c.props with
      | error e => rw [hdur] at h; exact absurd h (by simp)
      | ok days =>
        rw [hdur] at h
        simp only [] at h
        by_cases hlong : days > 2
        · rw [if_pos hlong] at h
          left; cases h; rfl
        · rw [if_neg hlong] at h
          exact hded s' h
    · rw [if_pos hev] at h
      by_cases hcal : c.cname = "VCALENDAR"
      · rw [if_pos hcal] at h
        left; cases h; rfl
      · rw [if_neg hcal] at h
        left; cases h; rfl
  · unfold mergeStepMS at h
    by_cases hev : c.cname = "VEVENT"
    · rw [if_neg (by simp [hev])] at h
      simp only [] at h
      cases hkey : event_key (prefixedProps pre c.props) with
      | error e => rw [hkey] at h; exact absurd h (by simp)
      | ok key =>
        rw [hkey] at h
        simp only [] at h
        cases hlook : lookupKey key s.seen with
        | some ex =>
          rw [hlook] at h
          simp only [] at h
          cases hsum : ex.props.summary with
          | none => rw [hsum] at h; exact absurd h (by simp)
          | some es =>
            rw [hsum] at h
            simp only [] at h
            by_cases hmem : applyPre pre (c.props.summary.getD []) ∈
                (if es ≠ [] then (splitCommaSpace es).map pyStrip else [])
            · rw [if_pos hmem] at h
              left; cases h; rfl
            · rw [if_neg hmem] at h
              right; left
              refine ⟨key, ex,
                (if es ≠ [] then es ++ ',' :: ' ' :: applyPre pre (c.props.summary.getD [])
                  else applyPre pre (c.props.summary.getD [])), hlook, ?_⟩
              cases h; rfl
        | none =>
          rw [hlook] at h
          simp only [] at h
          right; right
          refine ⟨key, hlook, hkey, ?_⟩
          cases h; rfl
    · rw [if_pos hev] at h
      by_cases hcal : c.cname = "VCALENDAR"
      · rw [if_pos hcal] at h
        left; cases h; rfl
      · rw [if_neg hcal] at h
        left; cases h; rfl

/-- C3: merge-accumulator invariant, for both merge-engine variants.  Any
single step of a merge pass (i) leaves every already-stored event's fields
other than the summary — in particular `start`/`end` and hence their
timezone representation — exactly as they were, and (ii) when a key becomes
present it is bound to the prefixed clone of the current candidate, whose
key it is; so the stored timing under a key is always that of the first
event inserted under it, and later duplicates change at most the summary. -/
theorem claim_c3_invariant (pre : PyStr) (s : MState) (c : Comp) (s' : MState)
    (h : mergeStepMC pre s c = .ok s' ∨ mergeStepMS pre s c = .ok s')
    (k : EventKey) :
    (∀ ex, lookupKey k s.seen = some ex →
      ∃ ex', lookupKey k s'.seen = some ex' ∧ sameExceptSummary ex' ex) ∧
    (lookupKey k s.seen = none → ∀ ex', lookupKey k s'.seen = some ex' →
      ex' = insertedComp pre c ∧
      event_key (insertedComp pre c).props = .ok k) := by
  rcases mergeStep_seen_cases pre s c s' h with
    hcase | ⟨key, x, t, hx, hup⟩ | ⟨key, hnone, hkey, hins⟩
  · constructor
    · intro ex hex
      exact ⟨ex, by rw [hcase]; exact hex, sameExceptSummary_rfl ex⟩
    · intro hnone ex' hex'
      rw [hcase, hnone] at hex'
      exact absurd hex' (by simp)
  · constructor
    · intro ex hex
      by_cases hk : k = key
      · subst hk
        obtain rfl : x = ex := by
          rw [hx] at hex
          exact Option.some.inj hex
        refine ⟨x.withSummary t, ?_, withSummary_sameExcept x t⟩
        rw [hup]
        exact lookupKey_update_self k _ s.seen (by simp [hx])
      · rw [hup, lookupKey_update_other key k _ hk s.seen]
        exact ⟨ex, hex, sameExceptSummary_rfl ex⟩
    · intro hnone ex' hex'
      by_cases hk : k = key
      · subst hk
        rw [hnone] at hx
        exact absurd hx (by simp)
      · rw [hup, lookupKey_update_other key k _ hk s.seen, hnone] at hex'
        exact absurd hex' (by simp)
  · constructor
    · intro ex hex
      refine ⟨ex, ?_, sameExceptSummary_rfl ex⟩
      rw [hins, lookupKey_append]
      simp [hex]
    · intro hnone' ex' hex'
      rw [hins, lookupKey_append, hnone'] at hex'
      by_cases hk : key = k
      · subst hk
        simp [lookupKey] at hex'
        exact ⟨hex'.symm, hkey⟩
      · simp [lookupKey, hk] at hex'

/-- The merge state after source B's duplicate is folded in. -/
def stateAfterB : MState :=
  ⟨[.eventRef keyStandup],
   [(keyStandup, .mk "VEVENT"
      ⟨some (.datetime ⟨2024, 1, 1⟩ ⟨10, 0, 0⟩ (.offset 0)),
       some (.datetime ⟨2024, 1, 1⟩ ⟨11, 0, 0⟩ (.offset 0)), none,
       some ("[A] Standup, [B] Daily Sync".toList), []⟩ .nil)]⟩

/-- Witness for C3 at the concrete fold of source B's duplicate into source
A's stored event. -/
theorem claim_c3_invariant_witness :
    mergeStepMC ("[B] ".toList) stateAfterA compDailySync = .ok stateAfterB ∧
    ∃ ex', lookupKey keyStandup stateAfterB.seen = some ex' ∧
      sameExceptSummary ex' exStandup :=
  ⟨by decide,
   (claim_c3_invariant ("[B] ".toList) stateAfterA compDailySync stateAfterB
      (Or.inl (by decide)) keyStandup).1 exStandup (by decide)⟩

/-- The duration computation in the words of the specification (§4.3):
compute `end` as the explicit end field if present, else `start` plus the
explicit duration field if present, else treat the duration as zero; then
for date-only events take whole days between the dates (end exclusive), for
timed events `(end - start)` in seconds divided by 86400. -/
def durationSpecDays (e : EvData) : Except String Rat :=
  match e.dtstart with
  | none => .error ("KeyError: DTSTART")
  | some start =>
    match (match e.dtend with
           | some v => some v
           | none => e.duration.map (pyAddSecs start)) with
    | none => .ok 0
    | some theEnd => durKernel start theEnd

/-- C7: `event_duration_days` computes exactly the specified duration — end
from the explicit end, else start plus the explicit duration, else zero;
whole days for date-only starts, seconds/86400 for timed ones — and an event
with neither end nor duration has duration 0 and passes the `> 2` filter. -/
theorem claim_c7_duration (e : EvData) :
    event_duration_days e = durationSpecDays e ∧
    (∀ v, e.dtstart = some v → e.dtend = none → e.duration = none →
      event_duration_days e = .ok 0 ∧ ¬((0 : Rat) > 2)) := by
  constructor
  · unfold event_duration_days durationSpecDays
    cases e.dtstart with
    | none => rfl
    | some start =>
      cases e.dtend with
      | some v => rfl
      | none =>
        cases e.duration with
        | some secs => rfl
        | none => rfl
  · intro v hv hend hdur
    refine ⟨?_, by norm_num⟩
    unfold event_duration_days
    rw [hv, hend, hdur]

/-- Witness for C7 at a date-only event with no end and no duration. -/
theorem claim_c7_duration_witness :
    event_duration_days ⟨some (.dateOnly ⟨2024, 1, 2⟩), none, none, none, []⟩ =
      durationSpecDays ⟨some (.dateOnly ⟨2024, 1, 2⟩), none, none, none, []⟩ ∧
    event_duration_days ⟨some (.dateOnly ⟨2024, 1, 2⟩), none, none, none, []⟩ =
      .ok 0 ∧ ¬((0 : Rat) > 2) :=
  ⟨(claim_c7_duration _).1,
   (claim_c7_duration ⟨some (.dateOnly ⟨2024, 1, 2⟩), none, none, none, []⟩).2
     _ rfl rfl rfl⟩

/-! ### C5: the two per-source recency-filter variants disagree -/

theorem bool_ext {x y : Bool} (h : x = true ↔ y = true) : x = y := by
  cases x <;> cases y <;> simp_all

theorem dateLt_total (a b : DateV) : (!dateLt a b) = dateGe a b := by
  cases a
  cases b
  apply bool_ext
  simp [dateLt, dateGe, DateV.mk.injEq]
  omega

/-- C5 counterexample: the `download_calendars.py` individual-refresh path
keeps an event whose start is before `now - 7 days`.  With `now` =
2026-10-14T12:00Z, `remove_old_events` prunes against the Monday of last
week (2026-10-05) using the event's END date, so an all-day event
2026-10-03..2026-10-07 survives even though its start 2026-10-03 is before
`(now - 7 days).date()` = 2026-10-07, where the claim says it is dropped. -/
theorem claim_c5_counterexample :
    start_of_last_week ⟨2026, 10, 14⟩ = ⟨2026, 10, 5⟩ ∧
    pyAddSecs (.datetime ⟨2026, 10, 14⟩ ⟨12, 0, 0⟩ (.offset 0)) (-604800) =
      .datetime ⟨2026, 10, 7⟩ ⟨12, 0, 0⟩ (.offset 0) ∧
    remove_old_events (start_of_last_week ⟨2026, 10, 14⟩)
      (.mk "VCALENDAR" ⟨none, none, none, none, []⟩
        (.cons (.mk "VEVENT"
          ⟨some (.dateOnly ⟨2026, 10, 3⟩), some (.dateOnly ⟨2026, 10, 7⟩),
           none, some ("Camp".toList), []⟩ .nil) .nil)) =
      .ok [.mk "VEVENT"
        ⟨some (.dateOnly ⟨2026, 10, 3⟩), some (.dateOnly ⟨2026, 10, 7⟩),
         none, some ("Camp".toList), []⟩ .nil] ∧
    dateGe ⟨2026, 10, 3⟩
      (DTValue.dateOf (pyAddSecs
        (.datetime ⟨2026, 10, 14⟩ ⟨12, 0, 0⟩ (.offset 0)) (-604800))) = false := by
  refine ⟨by decide, by decide, by decide, by decide⟩

/-- One-step unfolding of `filter_recent_events` at a cons cell. -/
theorem filter_recent_cons (cutoff : DTValue) (c : Comp) (cs : List Comp) :
    filter_recent_events cutoff (c :: cs) =
      if c.cname ≠ "VEVENT" then
        (match filter_recent_events cutoff cs with
         | .error e => .error e
         | .ok out => .ok (c :: out))
      else
        (match keepEventQ cutoff c.props with
         | .error e => .error e
         | .ok true =>
           (match filter_recent_events cutoff cs with
            | .error e => .error e
            | .ok out => .ok (c :: out))
         | .ok false => filter_recent_events cutoff cs) := rfl

/-- C5 (amended): the stated keep-iff rule holds for the `master_script.py`
individual-refresh filter (`filter_recent_events`): the per-event decision
equals the spec's `keepIfRecentSpec` (aware starts compared directly, naive
starts against the stripped cutoff, date-only starts by `start.date() >=
cutoff.date()`), and the filter keeps exactly the components whose decision
is true; the `download_calendars.py` variant instead prunes by END date
against the Monday of last week. -/
theorem claim_c5_recent_amended :
    (∀ (cutoff : DTValue) (e : EvData) (v : DTValue), e.dtstart = some v →
      keepEventQ cutoff e = keepIfRecentSpec cutoff v) ∧
    (∀ (cutoff : DTValue) (c : Comp) (cs : List Comp), c.cname ≠ "VEVENT" →
      filter_recent_events cutoff (c :: cs) =
        (filter_recent_events cutoff cs).map (c :: ·)) ∧
    (∀ (cutoff : DTValue) (c : Comp) (cs : List Comp), c.cname = "VEVENT" →
      keepEventQ cutoff c.props = .ok true →
      filter_recent_events cutoff (c :: cs) =
        (filter_recent_events cutoff cs).map (c :: ·)) ∧
    (∀ (cutoff : DTValue) (c : Comp) (cs : List Comp), c.cname = "VEVENT" →
      keepEventQ cutoff c.props = .ok false →
      filter_recent_events cutoff (c :: cs) = filter_recent_events cutoff cs) := by
  refine ⟨?_, ?_, ?_, ?_⟩
  · intro cutoff e v hv
    unfold keepEventQ keepIfRecentSpec
    rw [hv]
    cases v with
    | dateOnly d => simp only [dateLt_total]
    | datetime d t tz =>
      cases tz with
      | naive => rfl
      | offset m => rfl
  · intro cutoff c cs h
    rw [filter_recent_cons, if_pos h]
    cases hrec : filter_recent_events cutoff cs <;> rfl
  · intro cutoff c cs hev hkeep
    rw [filter_recent_cons, if_neg (by simp [hev]), hkeep]
    cases hrec : filter_recent_events cutoff cs <;> rfl
  · intro cutoff c cs hev hkeep
    rw [filter_recent_cons, if_neg (by simp [hev]), hkeep]

/-- Witness for the amended C5, including the inclusive boundary: an event
starting exactly at the cutoff `now - 7 days` is kept. -/
theorem claim_c5_recent_amended_witness :
    keepEventQ (.datetime ⟨2026, 10, 7⟩ ⟨12, 0, 0⟩ (.offset 0))
        ⟨some (.datetime ⟨2026, 10, 7⟩ ⟨12, 0, 0⟩ (.offset 0)), none, none,
          some ("Boundary".toList), []⟩ =
      keepIfRecentSpec (.datetime ⟨2026, 10, 7⟩ ⟨12, 0, 0⟩ (.offset 0))
        (.datetime ⟨2026, 10, 7⟩ ⟨12, 0, 0⟩ (.offset 0)) ∧
    keepEventQ (.datetime ⟨2026, 10, 7⟩ ⟨12, 0, 0⟩ (.offset 0))
        ⟨some (.datetime ⟨2026, 10, 7⟩ ⟨12, 0, 0⟩ (.offset 0)), none, none,
          some ("Boundary".toList), []⟩ = .ok true :=
  ⟨claim_c5_recent_amended.1 _ _ _ rfl, by decide⟩

/-! ### C2: the duration filter -/

theorem edd_withSummary (x : Comp) (t : PyStr) :
    event_duration_days (x.withSummary t).props = event_duration_days x.props := by
  cases x with
  | mk n p subs =>
    cases p
    rfl

theorem edd_prefixedProps (pre : PyStr) (e : EvData) :
    event_duration_days (prefixedProps pre e) = event_duration_days e := by
  cases e
  rfl

/-- Case analysis of the `merge_calendars.py` step, remembering that an
insertion only happens for a candidate within the duration bound. -/
theorem mergeStepMC_cases (pre : PyStr) (s : MState) (c : Comp) (s' : MState)
    (h : mergeStepMC pre s c = .ok s') :
    s'.seen = s.seen ∨
    (∃ key x t, lookupKey key s.seen = some x ∧
      s'.seen = updateKey key (x.withSummary t) s.seen) ∨
    (∃ key days, lookupKey key s.seen = none ∧
      event_duration_days c.props = .ok days ∧ days ≤ 2 ∧
      s'.seen = s.seen ++ [(key, insertedComp pre c)]) := by
  unfold mergeStepMC at h
  by_cases hev : c.cname = "VEVENT"
  · rw [if_neg (by simp [hev])] at h
    cases hdur : event_duration_days c.props with
    | error e => rw [hdur] at h; exact absurd h (by simp)
    | ok days =>
      rw [hdur] at h
      simp only [] at h
      by_cases hlong : days > 2
      · rw [if_pos hlong] at h
        left; cases h; rfl
      · rw [if_neg hlong] at h
        unfold dedupInsertMC at h
        simp only [] at h
        cases hkey : event_key (prefixedProps pre c.props) with
        | error e => rw [hkey] at h; exact absurd h (by simp)
        | ok key =>
          rw [hkey] at h
          simp only [] at h
          cases hlook : lookupKey key s.seen with
          | some ex =>
            rw [hlook] at h
            simp only [] at h
            cases hsum : ex.props.summary with
            | none => rw [hsum] at h; exact absurd h (by simp)
            | some es =>
              rw [hsum] at h
              simp only [] at h
              by_cases hmem : applyPre pre (c.props.summary.getD []) ∈
                  splitCommaSpace es
              · rw [if_pos hmem] at h
                left; cases h; rfl
              · rw [if_neg hmem] at h
                right; left
                refine ⟨key, ex,
                  es ++ ',' :: ' ' :: applyPre pre (c.props.summary.getD []),
                  hlook, ?_⟩
                cases h; rfl
          | none =>
            rw [hlook] at h
            simp only [] at h
            right; right
            refine ⟨key, days, hlook, rfl, le_of_not_lt hlong, ?_⟩
            cases h; rfl
  · rw [if_pos hev] at h
    by_cases hcal : c.cname = "VCALENDAR"
    · rw [if_pos hcal] at h
      left; cases h; rfl
    · rw [if_neg hcal] at h
      left; cases h; rfl

/-- Every event stored in the accumulator passed the `MAX_DAYS = 2` filter. -/
def seenDurOK (s : MState) : Prop :=
  ∀ k c, lookupKey k s.seen = some c →
    ∃ d, event_duration_days c.props = .ok d ∧ d ≤ 2

theorem mergeStepMC_durOK (pre : PyStr) (s : MState) (c : Comp) (s' : MState)
    (h : mergeStepMC pre s c = .ok s') (hinv : seenDurOK s) : seenDurOK s' := by
  rcases mergeStepMC_cases pre s c s' h with
    hs | ⟨key, x, t, hx, hup⟩ | ⟨key, days, hnone, hdur, hle, hins⟩
  · intro k c0 hl
    rw [hs] at hl
    exact hinv k c0 hl
  · intro k c0 hl
    rw [hup] at hl
    by_cases hk : k = key
    · subst hk
      rw [lookupKey_update_self k _ s.seen (by simp [hx])] at hl
      obtain rfl : x.withSummary t = c0 := Option.some.inj hl
      obtain ⟨d, hd, hdle⟩ := hinv k x hx
      exact ⟨d, by rw [edd_withSummary]; exact hd, hdle⟩
    · rw [lookupKey_update_other key k _ hk s.seen] at hl
      exact hinv k c0 hl
  · intro k c0 hl
    rw [hins, lookupKey_append] at hl
    cases hl0 : lookupKey k s.seen with
    | some x =>
      rw [hl0] at hl
      obtain rfl : x = c0 := Option.some.inj hl
      exact hinv k x hl0
    | none =>
      rw [hl0] at hl
      by_cases hk : key = k
      · subst hk
        simp [lookupKey] at hl
        refine ⟨days, ?_, hle⟩
        rw [← hl]
        show event_duration_days (prefixedProps pre c.props) = .ok days
        rw [edd_prefixedProps]
        exact hdur
      · simp [lookupKey, hk] at hl

theorem runComps_durOK (pre : PyStr) :
    ∀ (cs : List Comp) (s s' : MState),
      runComps (mergeStepMC pre) s cs = .ok s' → seenDurOK s → seenDurOK s'
  | [], s, s', h, hi => by
    obtain rfl : s = s' := by
      unfold runComps at h
      exact Except.ok.inj h
    exact hi
  | c :: cs, s, s', h, hi => by
    unfold runComps at h
    cases hstep : mergeStepMC pre s c with
    | error e => rw [hstep] at h; exact absurd h (by simp)
    | ok s1 =>
      rw [hstep] at h
      simp only [] at h
      exact runComps_durOK pre cs s1 s' h (mergeStepMC_durOK pre s c s1 hstep hi)

theorem runSourcesMC_durOK :
    ∀ (srcs : List SourceDesc) (s s' : MState) (rs : List Report),
      runSourcesMC s srcs = .ok (s', rs) → seenDurOK s → seenDurOK s'
  | [], s, s', rs, h, hi => by
    unfold runSourcesMC at h
    obtain ⟨rfl, -⟩ : s = s' ∧ ([] : List Report) = rs :=
      Prod.mk.injEq .. ▸ Except.ok.inj h
    exact hi
  | src :: rest, s, s', rs, h, hi => by
    unfold runSourcesMC at h
    by_cases hen : !src.enabled
    · rw [if_pos hen] at h
      exact runSourcesMC_durOK rest s s' rs h hi
    · rw [if_neg hen] at h
      have hrep : ∀ r out, withReport r (runSourcesMC s rest) = .ok out →
          seenDurOK out.1 := by
        intro r out hr
        cases hrun : runSourcesMC s rest with
        | error e => rw [hrun] at hr; exact absurd hr (by simp [withReport])
        | ok p =>
          rw [hrun] at hr
          obtain ⟨s1, rs1⟩ := p
          simp only [withReport] at hr
          have h1 := runSourcesMC_durOK rest s s1 rs1 hrun hi
          cases hr
          exact h1
      cases hurl : src.url with
      | none =>
        rw [hurl] at h
        exact hrep _ _ h
      | some u =>
        rw [hurl] at h
        simp only [] at h
        cases hfind : findHttp u with
        | none =>
          rw [hfind] at h
          exact hrep _ _ h
        | some i =>
          rw [hfind] at h
          simp only [] at h
          cases hfetch : src.fetched with
          | error msg =>
            rw [hfetch] at h
            exact hrep _ _ h
          | ok feed =>
            rw [hfetch] at h
            simp only [] at h
            cases hproc : processSourceMC src.pre s feed with
            | error e => rw [hproc] at h; exact absurd h (by simp)
            | ok s1 =>
              rw [hproc] at h
              simp only [] at h
              exact runSourcesMC_durOK rest s1 s' rs h
                (runComps_durOK src.pre feed.walk s s1 hproc hi)

/-- A five-day timed event (2024-01-01 10:00 UTC to 2024-01-06 10:00 UTC). -/
def evFiveDay : EvData :=
  ⟨some (.datetime ⟨2024, 1, 1⟩ ⟨10, 0, 0⟩ (.offset 0)),
   some (.datetime ⟨2024, 1, 6⟩ ⟨10, 0, 0⟩ (.offset 0)), none,
   some ("Long".toList), []⟩

def compFiveDay : Comp := .mk "VEVENT" evFiveDay .nil

def feedFiveDay : Comp :=
  .mk "VCALENDAR" ⟨none, none, none, none, []⟩ (.cons compFiveDay .nil)

/-- C2 counterexample: not every merge-engine variant filters by duration.
A 5-day event (duration strictly above 2 days) appears in the merged output
of `master_script.build_merged_calendar`, and is emitted by the
`merge_calendars_backup.py` loop as well — only `merge_calendars.py` drops
it. -/
theorem claim_c2_counterexample :
    event_duration_days evFiveDay = .ok 5 ∧ ((5 : Rat) > 2) ∧
    (processSourceMS ("[A] ".toList) ⟨[], []⟩ feedFiveDay).map outputEventComps =
      .ok [.mk "VEVENT" (prefixedProps ("[A] ".toList) evFiveDay) .nil] ∧
    mergeStepBK ("[A] ".toList) [] compFiveDay =
      [compFiveDay.withSummary ("[A] Long".toList)] ∧
    (processSourceMC ("[A] ".toList) ⟨[], []⟩ feedFiveDay).map outputEventComps =
      .ok [] := by
  refine ⟨by decide, by norm_num, by decide, by decide, by decide⟩

/-- C2 (amended): only the `merge_calendars.py` merge engine applies the
duration filter: every event in its merged output has duration at most 2
days (inclusive bound: a candidate of exactly 2 days proceeds to
dedup-insertion, one strictly above 2 days is silently dropped leaving the
state unchanged); the `master_script.py` and backup variants apply no
duration filter. -/
theorem claim_c2_duration_amended :
    (∀ (srcs : List SourceDesc) (s' : MState) (rs : List Report),
      runSourcesMC ⟨[], []⟩ srcs = .ok (s', rs) →
      ∀ c ∈ outputEventComps s',
        ∃ d, event_duration_days c.props = .ok d ∧ d ≤ 2) ∧
    (∀ (pre : PyStr) (s : MState) (c : Comp),
      c.cname = "VEVENT" → event_duration_days c.props = .ok 2 →
      mergeStepMC pre s c = dedupInsertMC pre s c) ∧
    (∀ (pre : PyStr) (s : MState) (c : Comp) (days : Rat),
      c.cname = "VEVENT" → event_duration_days c.props = .ok days → days > 2 →
      mergeStepMC pre s c = .ok s) := by
  refine ⟨?_, ?_, ?_⟩
  · intro srcs s' rs hrun c hc
    have hempty : seenDurOK ⟨[], []⟩ := by
      intro k c0 hl
      simp [lookupKey] at hl
    have hinv := runSourcesMC_durOK srcs ⟨[], []⟩ s' rs hrun hempty
    unfold outputEventComps at hc
    rw [List.mem_filterMap] at hc
    obtain ⟨item, -, hitem⟩ := hc
    cases item with
    | passthrough c0 => exact absurd hitem (by simp)
    | eventRef k => exact hinv k c hitem
  · intro pre s c hev hdur
    unfold mergeStepMC
    rw [if_neg (by simp [hev]), hdur]
    simp only [if_neg (by norm_num : ¬(2 : Rat) > 2)]
  · intro pre s c days hev hdur hlong
    unfold mergeStepMC
    rw [if_neg (by simp [hev]), hdur]
    simp only [if_pos hlong]

/-- Witness for the amended C2: a one-source run whose output events all
satisfy the bound, an exactly-2-day candidate that is not dropped, and the
5-day candidate that is. -/
theorem claim_c2_duration_amended_witness :
    (∀ c ∈ outputEventComps stateAfterA,
      ∃ d, event_duration_days c.props = .ok d ∧ d ≤ 2) ∧
    mergeStepMC ("[A] ".toList) ⟨[], []⟩
        (.mk "VEVENT" ⟨some (.dateOnly ⟨2024, 1, 1⟩),
          some (.dateOnly ⟨2024, 1, 3⟩), none, some ("TwoDays".toList), []⟩ .nil) =
      dedupInsertMC ("[A] ".toList) ⟨[], []⟩
        (.mk "VEVENT" ⟨some (.dateOnly ⟨2024, 1, 1⟩),
          some (.dateOnly ⟨2024, 1, 3⟩), none, some ("TwoDays".toList), []⟩ .nil) ∧
    mergeStepMC ("[A] ".toList) ⟨[], []⟩ compFiveDay = .ok ⟨[], []⟩ :=
  ⟨claim_c2_duration_amended.1 [srcDescA] stateAfterA [] (by decide),
   claim_c2_duration_amended.2.1 _ _ _ rfl (by decide),
   claim_c2_duration_amended.2.2 _ _ _ 5 rfl (by decide) (by norm_num)⟩

/-! ### C9: non-event passthrough walks nested components -/

/-- The components the loop passes through: anything walked whose name is
neither `VEVENT` nor `VCALENDAR`. -/
def isPassComp (c : Comp) : Bool :=
  c.cname ≠ "VEVENT" && c.cname ≠ "VCALENDAR"

/-- Case analysis of what one merge step (either variant) appends to the
output sequence. -/
theorem mergeStep_output_cases (pre : PyStr) (s : MState) (c : Comp)
    (s' : MState)
    (h : mergeStepMC pre s c = .ok s' ∨ mergeStepMS pre s c = .ok s') :
    (c.cname ≠ "VEVENT" ∧ c.cname ≠ "VCALENDAR" ∧
      s'.output = s.output ++ [.passthrough c]) ∨
    (c.cname = "VCALENDAR" ∧ s'.output = s.output) ∨
    (c.cname = "VEVENT" ∧
      (s'.output = s.output ∨ ∃ k, s'.output = s.output ++ [.eventRef k])) := by
  have hded : ∀ u : MState, dedupInsertMC pre s c = .ok u →
      u.output = s.output ∨ ∃ k, u.output = s.output ++ [.eventRef k] := by
    intro u hu
    unfold dedupInsertMC at hu
    simp only [] at hu
    cases hkey : event_key (prefixedProps pre c.props) with
    | error e => rw [hkey] at hu; exact absurd hu (by simp)
    | ok key =>
      rw [hkey] at hu
      simp only [] at hu
      cases hlook : lookupKey key s.seen with
      | some ex =>
        rw [hlook] at hu
        simp only [] at hu
        cases hsum : ex.props.summary with
        | none => rw [hsum] at hu; exact absurd hu (by simp)
        | some es =>
          rw [hsum] at hu
          simp only [] at hu
          by_cases hmem : applyPre pre (c.props.summary.getD []) ∈
              splitCommaSpace es
          · rw [if_pos hmem] at hu
            left; cases hu; rfl
          · rw [if_neg hmem] at hu
            left; cases hu; rfl
      | none =>
        rw [hlook] at hu
        simp only [] at hu
        right
        exact ⟨key, by cases hu; rfl⟩
  by_cases hev : c.cname = "VEVENT"
  · right; right
    refine ⟨hev, ?_⟩
    rcases h with h | h
    · unfold mergeStepMC at h
      rw [if_neg (by simp [hev])] at h
      cases hdur : event_duration_days c.props with
      | error e => rw [hdur] at h; exact absurd h (by simp)
      | ok days =>
        rw [hdur] at h
        simp only [] at h
        by_cases hlong : days > 2
        · rw [if_pos hlong] at h
          left; cases h; rfl
        · rw [if_neg hlong] at h
          exact hded s' h
    · unfold mergeStepMS at h
      rw [if_neg (by simp [hev])] at h
      simp only [] at h
      cases hkey : event_key (prefixedProps pre c.props) with
      | error e => rw [hkey] at h; exact absurd h (by simp)
      | ok key =>
        rw [hkey] at h
        simp only [] at h
        cases hlook : lookupKey key s.seen with
        | some ex =>
          rw [hlook] at h
          simp only [] at h
          cases hsum : ex.props.summary with
          | none => rw [hsum] at h; exact absurd h (by simp)
          | some es =>
            rw [hsum] at h
            simp only [] at h
            by_cases hmem : applyPre pre (c.props.summary.getD []) ∈
                (if es ≠ [] then (splitCommaSpace es).map pyStrip else [])
            · rw [if_pos hmem] at h
              left; cases h; rfl
            · rw [if_neg hmem] at h
              left; cases h; rfl
        | none =>
          rw [hlook] at h
          simp only [] at h
          right
          exact ⟨key, by cases h; rfl⟩
  · have h' : s'.output =
        if c.cname = "VCALENDAR" then s.output else s.output ++ [.passthrough c] := by
      rcases h with h | h
      · unfold mergeStepMC at h
        rw [if_pos hev] at h
        by_cases hcal : c.cname = "VCALENDAR"
        · rw [if_pos hcal] at h
          rw [if_pos hcal]
          cases h; rfl
        · rw [if_neg hcal] at h
          rw [if_neg hcal]
          cases h; rfl
      · unfold mergeStepMS at h
        rw [if_pos hev] at h
        by_cases hcal : c.cname = "VCALENDAR"
        · rw [if_pos hcal] at h
          rw [if_pos hcal]
          cases h; rfl
        · rw [if_neg hcal] at h
          rw [if_neg hcal]
          cases h; rfl
    by_cases hcal : c.cname = "VCALENDAR"
    · right; left
      exact ⟨hcal, by rw [h', if_pos hcal]⟩
    · left
      exact ⟨hev, hcal, by rw [h', if_neg hcal]⟩

theorem mergeStep_passthrough (pre : PyStr) (s : MState) (c : Comp)
    (s' : MState)
    (h : mergeStepMC pre s c = .ok s' ∨ mergeStepMS pre s c = .ok s') :
    passthroughComps s' = passthroughComps s ++
      (if isPassComp c then [c] else []) := by
  rcases mergeStep_output_cases pre s c s' h with
    ⟨h1, h2, hout⟩ | ⟨hcal, hout⟩ | ⟨hev, hout⟩
  · rw [if_pos (by simp [isPassComp, h1, h2])]
    unfold passthroughComps
    rw [hout, List.filterMap_append]
    rfl
  · rw [if_neg (by simp [isPassComp, hcal])]
    unfold passthroughComps
    rw [hout, List.append_nil]
  · rw [if_neg (by simp [isPassComp, hev])]
    unfold passthroughComps
    rcases hout with hout | ⟨k, hout⟩
    · rw [hout, List.append_nil]
    · rw [hout]
      simp [List.filterMap_append]

theorem runComps_passthrough (pre : PyStr)
    (step : MState → Comp → Except String MState)
    (hstep : step = mergeStepMC pre ∨ step = mergeStepMS pre) :
    ∀ (cs : List Comp) (s s' : MState), runComps step s cs = .ok s' →
      passthroughComps s' = passthroughComps s ++ cs.filter isPassComp
  | [], s, s', h => by
    obtain rfl : s = s' := by
      unfold runComps at h
      exact Except.ok.inj h
    simp [List.filter]
  | c :: cs, s, s', h => by
    unfold runComps at h
    cases hone : step s c with
    | error e => rw [hone] at h; exact absurd h (by simp)
    | ok s1 =>
      rw [hone] at h
      simp only [] at h
      have hrec := runComps_passthrough pre step hstep cs s1 s' h
      have hfirst : passthroughComps s1 = passthroughComps s ++
          (if isPassComp c then [c] else []) := by
        rcases hstep with rfl | rfl
        · exact mergeStep_passthrough pre s c s1 (Or.inl hone)
        · exact mergeStep_passthrough pre s c s1 (Or.inr hone)
      rw [hrec, hfirst, List.append_assoc]
      congr 1
      by_cases hp : isPassComp c
      · simp [List.filter, hp]
      · simp [List.filter, hp]

/-- The timezone block with a nested STANDARD subcomponent, and its feed. -/
def compStd : Comp := .mk "STANDARD" ⟨none, none, none, none, []⟩ .nil

def compVtz : Comp :=
  .mk "VTIMEZONE" ⟨none, none, none, none, []⟩ (.cons compStd .nil)

def feedTz : Comp :=
  .mk "VCALENDAR" ⟨none, none, none, none, []⟩ (.cons compVtz .nil)

/-- C9 counterexample: the engine iterates `cal.walk()`, which is recursive,
so the STANDARD block nested inside a VTIMEZONE is ALSO emitted as a
top-level component of the merged output (after the VTIMEZONE that still
contains it), contradicting the claim that no nested component is emitted
at top level. -/
theorem claim_c9_counterexample :
    (processSourceMC [] ⟨[], []⟩ feedTz).map passthroughComps =
      .ok [compVtz, compStd] ∧
    compStd ∈ compVtz.subs.toList ∧
    feedTz.walk = [feedTz, compVtz, compStd] := by
  refine ⟨by decide, by decide, by decide⟩

/-- C9 (amended): in both merge-engine variants, one pass over a source feed
appends to the merged output exactly the components of the feed's recursive
walk whose name is neither `VEVENT` nor `VCALENDAR`, in walk order — so
top-level non-event components pass through unmodified, the feed-container
marker is never emitted, but components nested inside other components
(e.g. timezone STANDARD/DAYLIGHT blocks, alarms inside events) are emitted
as top-level components too. -/
theorem claim_c9_passthrough_amended (pre : PyStr) (s : MState) (feed : Comp)
    (s' : MState)
    (h : processSourceMC pre s feed = .ok s' ∨ processSourceMS pre s feed = .ok s') :
    passthroughComps s' = passthroughComps s ++ feed.walk.filter isPassComp := by
  rcases h with h | h
  · exact runComps_passthrough pre (mergeStepMC pre) (Or.inl rfl) feed.walk s s' h
  · exact runComps_passthrough pre (mergeStepMS pre) (Or.inr rfl) feed.walk s s' h

/-- Witness for the amended C9 at the nested-timezone feed. -/
theorem claim_c9_passthrough_amended_witness :
    passthroughComps ⟨[.passthrough compVtz, .passthrough compStd], []⟩ =
      passthroughComps ⟨[], []⟩ ++ feedTz.walk.filter isPassComp :=
  claim_c9_passthrough_amended [] ⟨[], []⟩ feedTz
    ⟨[.passthrough compVtz, .passthrough compStd], []⟩ (Or.inl (by decide))

/-! ### C6: partial-failure behaviour of the source loop -/

/-- One-step unfolding of the source loop. -/
theorem runSourcesMC_cons (s : MState) (src : SourceDesc)
    (rest : List SourceDesc) :
    runSourcesMC s (src :: rest) =
      if !src.enabled then runSourcesMC s rest
      else
        match src.url with
        | none =>
          withReport (.skipName src.sname "KeyError: URL") (runSourcesMC s rest)
        | some u =>
          match findHttp u with
          | none =>
            withReport (.skipName src.sname "ValueError: Invalid URL string")
              (runSourcesMC s rest)
          | some _ =>
            match src.fetched with
            | .error msg => withReport (.failNoName msg) (runSourcesMC s rest)
            | .ok feed =>
              match processSourceMC src.pre s feed with
              | .error e => .error e
              | .ok s' => runSourcesMC s' rest := rfl

/-- An event with no DTSTART: decoding it raises `KeyError`. -/
def evNoStart : EvData := ⟨none, none, none, some ("Ghost".toList), []⟩

def feedBad : Comp :=
  .mk "VCALENDAR" ⟨none, none, none, none, []⟩
    (.cons (.mk "VEVENT" evNoStart .nil) .nil)

def srcBad : SourceDesc :=
  ⟨true, "Bad", [], some ("http://bad.example/cal.ics".toList), .ok feedBad⟩

def srcDisabled : SourceDesc :=
  ⟨false, "Off", [], some ("http://off.example/cal.ics".toList), .ok feedSrcA⟩

def srcFetchFail : SourceDesc :=
  ⟨true, "Flaky", [], some ("http://f.example/cal.ics".toList),
   .error ("HTTPError: 500")⟩

/-- C6 counterexample: (i) an error while processing one source's events — a
VEVENT with no DTSTART — aborts the whole `merge_calendars.main` run, so the
following source (which alone processes fine) is never reached, even though
no publish stage is involved; (ii) a disabled source is skipped with no
report at all, not with its name and a reason. -/
theorem claim_c6_counterexample :
    runSourcesMC ⟨[], []⟩ [srcBad, srcDescB] = .error ("KeyError: DTSTART") ∧
    (runSourcesMC ⟨[], []⟩ [srcDescB]).isOk = true ∧
    runSourcesMC ⟨[], []⟩ [srcDisabled, srcDescB] =
      (runSourcesMC ⟨[], []⟩ [srcDescB]).map (fun p => (p.1, p.2)) ∧
    runSourcesMC ⟨[], []⟩ [srcDisabled] = .ok (⟨[], []⟩, []) := by
  refine ⟨by decide, by decide, by decide, by decide⟩

/-- C6 (amended): a failure confined to one source among {disabled flag,
missing URL field, malformed URL, fetch/parse failure} never prevents the
loop from processing the remaining sources: the run continues exactly as on
the rest, with a `"Skipping name: reason"` report for missing/malformed
URLs, a nameless `"Failed (reason); skipping."` report for fetch/parse
failures, and no report at all for disabled sources.  An uncaught error
while processing a fetched source's events, however, aborts the entire
run. -/
theorem claim_c6_partial_failure_amended :
    (∀ (s : MState) (src : SourceDesc) (rest : List SourceDesc),
      src.enabled = false →
      runSourcesMC s (src :: rest) = runSourcesMC s rest) ∧
    (∀ (s : MState) (src : SourceDesc) (rest : List SourceDesc),
      src.enabled = true → src.url = none →
      runSourcesMC s (src :: rest) =
        withReport (.skipName src.sname "KeyError: URL") (runSourcesMC s rest)) ∧
    (∀ (s : MState) (src : SourceDesc) (rest : List SourceDesc) (u : PyStr),
      src.enabled = true → src.url = some u → findHttp u = none →
      runSourcesMC s (src :: rest) =
        withReport (.skipName src.sname "ValueError: Invalid URL string")
          (runSourcesMC s rest)) ∧
    (∀ (s : MState) (src : SourceDesc) (rest : List SourceDesc) (u : PyStr)
      (i : Nat) (msg : String),
      src.enabled = true → src.url = some u → findHttp u = some i →
      src.fetched = .error msg →
      runSourcesMC s (src :: rest) =
        withReport (.failNoName msg) (runSourcesMC s rest)) ∧
    (∀ (s : MState) (src : SourceDesc) (rest : List SourceDesc) (u : PyStr)
      (i : Nat) (feed : Comp) (e : String),
      src.enabled = true → src.url = some u → findHttp u = some i →
      src.fetched = .ok feed → processSourceMC src.pre s feed = .error e →
      runSourcesMC s (src :: rest) = .error e) := by
  refine ⟨?_, ?_, ?_, ?_, ?_⟩
  · intro s src rest hen
    simp [runSourcesMC_cons, hen]
  · intro s src rest hen hurl
    simp [runSourcesMC_cons, hen, hurl]
  · intro s src rest u hen hurl hfind
    simp [runSourcesMC_cons, hen, hurl, hfind]
  · intro s src rest u i msg hen hurl hfind hfetch
    simp [runSourcesMC_cons, hen, hurl, hfind, hfetch]
  · intro s src rest u i feed e hen hurl hfind hfetch hproc
    simp [runSourcesMC_cons, hen, hurl, hfind, hfetch, hproc]

/-- Witness for the amended C6 at a concrete disabled source and a concrete
fetch failure. -/
theorem claim_c6_partial_failure_amended_witness :
    runSourcesMC ⟨[], []⟩ (srcDisabled :: [srcDescB]) =
      runSourcesMC ⟨[], []⟩ [srcDescB] ∧
    runSourcesMC ⟨[], []⟩ (srcFetchFail :: [srcDescB]) =
      withReport (.failNoName "HTTPError: 500") (runSourcesMC ⟨[], []⟩ [srcDescB]) :=
  ⟨claim_c6_partial_failure_amended.1 _ _ _ rfl,
   claim_c6_partial_failure_amended.2.2.2.1 _ _ _ _ 0 _ rfl rfl rfl rfl⟩
